import Mathlib

/-!
Verification development for the climate data consolidation pipeline
(`climate_data_app.py`).  The program consolidates per-station daily
climate files into per-year tables, computes the average of all stations
except the last ("target") station, fills gaps in the target station's
series from that average, and logs every fill.

Modelling conventions:
* numeric cells are `Option ℚ` (`none` models a pandas `NaN`);
* a parsed data file is its whitespace-tokenized rows, `List (List String)`;
  numeric parsing of a single cell (`pd.to_numeric` on one value) is an
  explicit parameter `parse : String → Option ℚ`;
* the filesystem is a function from a station name to the directory
  listing of its folder, each entry carrying its name, an is-directory
  flag and its tokenized content;
* station identifiers are kept as the raw station names (the program
  decorates column names and log entries with a `_Data` suffix, which is
  presentation only);
* digits are the ASCII digits `0`–`9` (`Char.isDigit`).
-/

namespace ClimateApp

/-- Numeric value of an ASCII digit character. -/
def digitVal (c : Char) : Nat := c.toNat - '0'.toNat

/-- Century heuristic of `extract_year_from_filename`: a two-digit year
above 50 is mapped into the 1900s, otherwise into the 2000s. -/
def centuryAdjust (v : Nat) : Nat := if 50 < v then 1900 + v else 2000 + v

/-- One attempt of the regular expression `\.(\d{2})(?:\.[^.]*)?$` at a
fixed start position: the list must begin with a literal period and two
digits, followed either by the end of the string or by one further
period-delimited, period-free extension reaching the end of the string.
Returns the captured two-digit value. -/
def matchTwoDigitAt : List Char → Option Nat
  | c :: d1 :: d2 :: rest =>
    if c = '.' ∧ d1.isDigit ∧ d2.isDigit then
      match rest with
      | [] => some (10 * digitVal d1 + digitVal d2)
      | e :: ext =>
        if e = '.' ∧ ∀ x ∈ ext, x ≠ '.' then some (10 * digitVal d1 + digitVal d2)
        else none
    else none
  | _ => none

/-- `re.search` semantics for the anchored pattern: try every start
position from the left and return the first (leftmost) match. -/
def searchTwoDigitYear : List Char → Option Nat
  | [] => none
  | c :: cs =>
    match matchTwoDigitAt (c :: cs) with
    | some v => some v
    | none => searchTwoDigitYear cs

/-- Embedding of `extract_year_from_filename`: search the filename for the
`\.(\d{2})(?:\.[^.]*)?$` pattern and apply the century heuristic to the
captured two-digit value; `none` when the pattern does not occur. -/
def extract_year_from_filename (s : String) : Option Nat :=
  (searchTwoDigitYear s.data).map centuryAdjust

/-- Specification-side reading of the year-suffix pattern, bare form: the
filename ends with a literal period followed by exactly two digits (read
off the reversed character list). -/
def bareYearTokenCore (l : List Char) : Option Nat :=
  match l.reverse with
  | d2 :: d1 :: c :: _ =>
    if c = '.' ∧ d1.isDigit ∧ d2.isDigit then some (10 * digitVal d1 + digitVal d2)
    else none
  | _ => none

/-- Specification-side reading of the year-suffix pattern, extension form:
after stripping one trailing period-delimited (period-free) extension, the
filename ends with a literal period followed by exactly two digits. -/
def extYearTokenCore (l : List Char) : Option Nat :=
  match l.reverse.dropWhile (fun x => x != '.') with
  | c :: d2 :: d1 :: e :: _ =>
    if c = '.' ∧ e = '.' ∧ d1.isDigit ∧ d2.isDigit then some (10 * digitVal d1 + digitVal d2)
    else none
  | _ => none

/-- Specification-side two-digit year token of a filename: a trailing
two-digit token immediately preceded by a literal period, optionally
followed by one further period-delimited extension (the extension form
takes precedence, as in the spec's example where `X.92` and `X.92.txt`
extract the same token). -/
def specTokenCore (l : List Char) : Option Nat :=
  match extYearTokenCore l with
  | some v => some v
  | none => bareYearTokenCore l

/-- String-level wrapper for `specTokenCore`. -/
def specYearToken (s : String) : Option Nat := specTokenCore s.data

/-- A rational series with explicit absent values, one entry per
observation row in file order. -/
abbrev Series := List (Option ℚ)

/-- One directory entry of a station folder: its filename, whether it is a
sub-directory, and its whitespace-tokenized rows (one token list per
non-blank line). -/
structure DataFile where
  name : String
  isDir : Bool
  rows : List (List String)

/-- Embedding of `read_custom_space_separated_file`: the pandas reader
fails on an empty file and on a row with more fields than the first row;
the program then requires at least two columns and extracts the second
column, coercing each unparseable cell to an absent value while keeping
every row. `none` models the reader returning `None` after the caught
exception. -/
def read_custom_space_separated_file (parse : String → Option ℚ)
    (rows : List (List String)) : Option Series :=
  match rows with
  | [] => none
  | r0 :: rest =>
    if rest.any (fun r => r0.length < r.length) then none
    else if r0.length < 2 then none
    else some (rows.map (fun r => (r.get? 1).bind parse))

/-- Station-year aggregation, inner loop: files of the station folder in
listing order; directories are skipped, a file is read only when its
extracted year equals the target year, and files whose read fails are
skipped. -/
def station_year_parts (parse : String → Option ℚ) (files : List DataFile)
    (year : Nat) : List Series :=
  files.filterMap (fun f =>
    if f.isDir then none
    else if extract_year_from_filename f.name = some year then
      read_custom_space_separated_file parse f.rows
    else none)

/-- Concatenated series of one station for one year (`pd.concat` with
`ignore_index=True`); `none` when no file contributed, in which case the
station is absent from that year's table. -/
def station_year_series (parse : String → Option ℚ) (files : List DataFile)
    (year : Nat) : Option Series :=
  if (station_year_parts parse files year).isEmpty then none
  else some (station_year_parts parse files year).flatten

/-- The target station is the last entry of the configured station list. -/
def targetName (names : List String) : String := names.getLastD ""

/-- Cell of a series at 0-based row index `i`; rows beyond the end of the
series read as absent (`pd.concat` alignment padding). -/
def cellAt (ser : Series) (i : Nat) : Option ℚ := ser.getD i none

/-- Stations that contributed data for the year, in configured order. -/
def contributingNames (names : List String) (contrib : String → Option Series) :
    List String :=
  names.filter (fun s => (contrib s).isSome)

/-- Cell of a station's (possibly absent) series at row `i`. -/
def stationCell (contrib : String → Option Series) (s : String) (i : Nat) :
    Option ℚ :=
  cellAt ((contrib s).getD []) i

/-- Number of rows of the consolidated table: the length of the longest
contributing series (`df_consolidated.shape[0]` after the outer-aligned
`pd.concat`). -/
def maxDataLength (names : List String) (contrib : String → Option Series) : Nat :=
  ((names.filterMap contrib).map List.length).foldr max 0

/-- Columns selected for `Average_Other_Stations`: all configured stations
except the last one, restricted to those present in the table; empty when
fewer than two stations are configured. -/
def avgStations (names : List String) (contrib : String → Option Series) :
    List String :=
  if 1 < names.length then names.dropLast.filter (fun s => (contrib s).isSome)
  else []

/-- Row value of `Average_Other_Stations`: the mean over the selected
columns, skipping absent values (`DataFrame.mean(axis=1)`); absent when no
selected column has a present value at the row. -/
def averageAt (names : List String) (contrib : String → Option Series) (i : Nat) :
    Option ℚ :=
  let vs := (avgStations names contrib).filterMap (fun s => stationCell contrib s i)
  if vs.isEmpty then none else some (vs.sum / (vs.length : ℚ))

/-- Row value of the `Trade` column: a copy of the target station's column
when that column exists, with absent entries replaced by the row's average
when the average is present; an all-absent column when the target station
contributed no data. -/
def tradeAt (names : List String) (contrib : String → Option Series) (i : Nat) :
    Option ℚ :=
  if (contrib (targetName names)).isSome then
    match stationCell contrib (targetName names) i with
    | some v => some v
    | none => averageAt names contrib i
  else none

/-- Audit record of a single gap fill. -/
structure FillRecord where
  year : Nat
  day : Nat
  station : String
  value : ℚ
  deriving DecidableEq

/-- Fill decision at a single row: a record exactly when the target
station's value is absent and the average is present. -/
def fillAtRow (names : List String) (contrib : String → Option Series)
    (year : Nat) (i : Nat) : Option FillRecord :=
  match stationCell contrib (targetName names) i, averageAt names contrib i with
  | none, some a => some (FillRecord.mk year (i + 1) (targetName names) a)
  | _, _ => none

/-- Fill records of one year, in row order: one record per row at which
the target station's value is absent and the average is present; no
records at all when the target station's column does not exist. -/
def fillsFor (names : List String) (contrib : String → Option Series)
    (year : Nat) : List FillRecord :=
  if (contrib (targetName names)).isSome then
    (List.range (maxDataLength names contrib)).filterMap (fillAtRow names contrib year)
  else []

/-- Consolidated per-year table: the sequential day column, one column per
contributing station (in configured order), the cross-station average
column and the gap-filled trade column. -/
structure YearTable where
  dayCol : List Nat
  stationCols : List (String × Series)
  avgCol : Series
  tradeCol : Series
  deriving DecidableEq

/-- Table construction for one year (consolidation, day numbering, average
and trade columns). -/
def buildTable (names : List String) (contrib : String → Option Series) :
    YearTable :=
  { dayCol := List.range' 1 (maxDataLength names contrib)
    stationCols := (contributingNames names contrib).map (fun s =>
      (s, (List.range (maxDataLength names contrib)).map (stationCell contrib s)))
    avgCol := (List.range (maxDataLength names contrib)).map (averageAt names contrib)
    tradeCol := (List.range (maxDataLength names contrib)).map (tradeAt names contrib) }

/-- One year of the main loop: `none` when no station contributed any data
(the year is skipped), otherwise the built table and the year's fill
records. -/
def consolidate (names : List String) (contrib : String → Option Series)
    (year : Nat) : Option (YearTable × List FillRecord) :=
  if (contributingNames names contrib).isEmpty then none
  else some (buildTable names contrib, fillsFor names contrib year)

/-- Per-year station contributions derived from the filesystem. -/
def contribOf (parse : String → Option ℚ) (fsys : String → List DataFile)
    (year : Nat) : String → Option Series :=
  fun s => station_year_series parse (fsys s) year

/-- The year loop: years processed in list order; a year with no data is
skipped, every other year appends its table to the per-year collection and
its fill records to the overall chronological log. -/
def processYears (parse : String → Option ℚ) (names : List String)
    (fsys : String → List DataFile) : List Nat → List (Nat × YearTable) × List FillRecord
  | [] => ([], [])
  | y :: ys =>
    let rest := processYears parse names fsys ys
    match consolidate names (contribOf parse fsys y) y with
    | none => rest
    | some (t, fills) => ((y, t) :: rest.1, fills ++ rest.2)

/-- The fixed year range 1981–2010 in ascending order. -/
def years_to_process : List Nat := List.range' 1981 30

/-- Embedding of the full `run_climate_processor` pipeline: the per-year
tables (which underlie the per-year exports and the columns of the
multi-year aggregates) and the process-wide fill log. -/
def run_climate_processor (parse : String → Option ℚ) (names : List String)
    (fsys : String → List DataFile) : List (Nat × YearTable) × List FillRecord :=
  processYears parse names fsys years_to_process

/-- Mean of a list of rationals, absent for the empty list. -/
def mean? (l : List ℚ) : Option ℚ :=
  if l.isEmpty then none else some (l.sum / (l.length : ℚ))

/-- Specification-side notion for C2: the contributing stations excluding
the target (last-listed) station. -/
def otherStations (names : List String) (contrib : String → Option Series) :
    List String :=
  names.filter (fun s => (contrib s).isSome && (s != targetName names))

/-- Specification-side notion for C5: the length of the longest
contributing station series. -/
def longestContribLength (names : List String) (contrib : String → Option Series) :
    Nat :=
  ((contributingNames names contrib).map (fun s => ((contrib s).getD []).length)).foldr max 0

/-- Chronological order on fill records: earlier year first, then smaller
day index within a year. -/
def chronOrder (a b : FillRecord) : Prop :=
  a.year < b.year ∨ (a.year = b.year ∧ a.day < b.day)

/-! Helper lemmas about characters and `dropWhile`, used to relate the
leftmost regex search to the trailing-token description. -/

lemma digit_ne_dot {c : Char} (h : c.isDigit = true) : c ≠ '.' := by
  rintro rfl
  exact absurd h (by decide)

lemma digit_bne_dot {c : Char} (h : c.isDigit = true) : (c != '.') = true := by
  exact bne_iff_ne.mpr (digit_ne_dot h)

lemma dropWhile_append_of_all {p : Char → Bool} {xs : List Char} (ys : List Char)
    (h : ∀ x ∈ xs, p x = true) :
    List.dropWhile p (xs ++ ys) = List.dropWhile p ys := by
  induction xs with
  | nil => rfl
  | cons a l ih =>
    rw [List.cons_append, List.dropWhile_cons, if_pos (h a (by simp))]
    exact ih (fun x hx => h x (List.mem_cons_of_mem a hx))

lemma dropWhile_append_of_ne_nil {p : Char → Bool} {xs : List Char} (ys : List Char)
    (h : List.dropWhile p xs ≠ []) :
    List.dropWhile p (xs ++ ys) = List.dropWhile p xs ++ ys := by
  induction xs with
  | nil => simp at h
  | cons a l ih =>
    by_cases hp : p a = true
    · rw [List.dropWhile_cons, if_pos hp] at h
      rw [List.cons_append, List.dropWhile_cons, if_pos hp, List.dropWhile_cons,
        if_pos hp]
      exact ih h
    · rw [List.cons_append, List.dropWhile_cons, if_neg hp, List.dropWhile_cons,
        if_neg hp, List.cons_append]

lemma eq_dot_of_dropWhile_cons {l w : List Char} {x : Char}
    (h : l.dropWhile (fun c => c != '.') = x :: w) : x = '.' := by
  induction l with
  | nil => simp at h
  | cons a t ih =>
    rw [List.dropWhile_cons] at h
    by_cases hp : (a != '.') = true
    · rw [if_pos hp] at h
      exact ih h
    · rw [if_neg hp] at h
      have ha : a = '.' := by simpa using hp
      injection h with h1 h2
      rw [← h1, ha]

/-- Prepending a character never changes the bare trailing token when the
regex does not already match at the new front position. -/
lemma bareYearTokenCore_cons {c : Char} {cs : List Char}
    (hm : matchTwoDigitAt (c :: cs) = none) :
    bareYearTokenCore (c :: cs) = bareYearTokenCore cs := by
  rcases hr : cs.reverse with _ | ⟨a, _ | ⟨b, _ | ⟨d, t⟩⟩⟩
  · have hcs : cs = [] := List.reverse_eq_nil_iff.mp hr
    subst hcs
    rfl
  · have hcs : cs = [a] := by
      have h2 := congrArg List.reverse hr
      simpa using h2
    subst hcs
    rfl
  · have hcs : cs = [b, a] := by
      have h2 := congrArg List.reverse hr
      simpa using h2
    subst hcs
    by_cases hg : c = '.' ∧ b.isDigit ∧ a.isDigit
    · exfalso
      simp [matchTwoDigitAt, hg.1, hg.2.1, hg.2.2] at hm
    · simp [bareYearTokenCore, hg]
  · have h1 : (c :: cs).reverse = a :: b :: d :: (t ++ [c]) := by
      rw [List.reverse_cons, hr]
      rfl
    simp [bareYearTokenCore, hr, h1]

/-- Prepending a character never changes the extension-form trailing token
when the regex does not already match at the new front position. -/
lemma extYearTokenCore_cons {c : Char} {cs : List Char}
    (hm : matchTwoDigitAt (c :: cs) = none) :
    extYearTokenCore (c :: cs) = extYearTokenCore cs := by
  rcases hd : cs.reverse.dropWhile (fun x => x != '.') with _ | ⟨x, w⟩
  · have hall : ∀ y ∈ cs.reverse, (y != '.') = true := List.dropWhile_eq_nil_iff.mp hd
    by_cases hc : c = '.'
    · subst hc
      have h2 : List.dropWhile (fun x => x != '.') (cs.reverse ++ ['.']) = ['.'] := by
        rw [dropWhile_append_of_all _ hall, List.dropWhile_cons, if_neg (by decide)]
      simp [extYearTokenCore, h2, hd]
    · have hbc : (c != '.') = true := bne_iff_ne.mpr hc
      have h2 : List.dropWhile (fun x => x != '.') (cs.reverse ++ [c]) = [] := by
        rw [dropWhile_append_of_all _ hall, List.dropWhile_cons, if_pos hbc]
        rfl
      simp [extYearTokenCore, h2, hd]
  · have hx : x = '.' := eq_dot_of_dropWhile_cons hd
    subst hx
    have hsplit : cs.reverse = cs.reverse.takeWhile (fun x => x != '.') ++ '.' :: w := by
      conv_lhs => rw [← List.takeWhile_append_dropWhile (fun x => x != '.') cs.reverse]
      rw [hd]
    have h2 : List.dropWhile (fun x => x != '.') (cs.reverse ++ [c]) = '.' :: (w ++ [c]) := by
      rw [dropWhile_append_of_ne_nil _ (by rw [hd]; simp), hd]
      rfl
    rcases w with _ | ⟨d2, _ | ⟨d1, _ | ⟨e, t⟩⟩⟩
    · simp [extYearTokenCore, hd, h2]
    · simp [extYearTokenCore, hd, h2]
    · -- the new character could complete an extension-form token; the
      -- absence of a regex match at the front rules the guard out
      have hcs : cs = d1 :: d2 :: '.' :: (cs.reverse.takeWhile (fun x => x != '.')).reverse := by
        have h3 := congrArg List.reverse hsplit
        simpa using h3
      by_cases hg : c = '.' ∧ d1.isDigit ∧ d2.isDigit
      · exfalso
        obtain ⟨hc, hg1, hg2⟩ := hg
        subst hc
        rw [hcs] at hm
        have hur : ∀ z ∈ (cs.reverse.takeWhile (fun x => x != '.')).reverse, z ≠ '.' := by
          intro z hz
          have hz2 := List.mem_takeWhile_imp (List.mem_reverse.mp hz)
          exact bne_iff_ne.mp hz2
        simp [matchTwoDigitAt, hg1, hg2, hur] at hm
        exact absurd (List.mem_takeWhile_imp hm) (by decide)
      · have hg2 : ¬('.' = '.' ∧ c = '.' ∧ d1.isDigit ∧ d2.isDigit) := by
          intro hand
          exact hg ⟨hand.2.1, hand.2.2⟩
        simp [extYearTokenCore, hd, h2, hg2, hg]
    · simp [extYearTokenCore, hd, h2]

/-- The leftmost search of the anchored regex agrees with the
specification's trailing-token description. -/
theorem searchTwoDigitYear_eq_spec (l : List Char) :
    searchTwoDigitYear l = specTokenCore l := by
  induction l with
  | nil => rfl
  | cons c cs ih =>
    cases hm : matchTwoDigitAt (c :: cs) with
    | none =>
      have hs : searchTwoDigitYear (c :: cs) = searchTwoDigitYear cs := by
        simp [searchTwoDigitYear, hm]
      rw [hs, ih]
      show specTokenCore cs = specTokenCore (c :: cs)
      rw [specTokenCore, specTokenCore, extYearTokenCore_cons hm, bareYearTokenCore_cons hm]
    | some v =>
      have hs : searchTwoDigitYear (c :: cs) = some v := by
        simp [searchTwoDigitYear, hm]
      rw [hs]
      rcases cs with _ | ⟨d1, _ | ⟨d2, rest⟩⟩
      · simp [matchTwoDigitAt] at hm
      · simp [matchTwoDigitAt] at hm
      by_cases hg : c = '.' ∧ d1.isDigit ∧ d2.isDigit
      swap
      · simp [matchTwoDigitAt, hg] at hm
      obtain ⟨hc, hd1, hd2⟩ := hg
      subst hc
      rcases rest with _ | ⟨e, ext⟩
      · have hv : v = 10 * digitVal d1 + digitVal d2 := by
          simp [matchTwoDigitAt, hd1, hd2] at hm
          exact hm.symm
        subst hv
        simp [specTokenCore, extYearTokenCore, bareYearTokenCore, hd1, hd2,
          digit_bne_dot hd1, digit_bne_dot hd2]
      · by_cases hext : e = '.' ∧ ∀ x ∈ ext, x ≠ '.'
        swap
        · simp [matchTwoDigitAt, hd1, hd2, hext] at hm
        obtain ⟨he, hx⟩ := hext
        subst he
        have hv : v = 10 * digitVal d1 + digitVal d2 := by
          simp [matchTwoDigitAt, hd1, hd2, hx] at hm
          exact hm.2.symm
        subst hv
        have hrev : (('.' : Char) :: d1 :: d2 :: '.' :: ext).reverse =
            ext.reverse ++ ['.', d2, d1, '.'] := by
          simp
        have hall : ∀ y ∈ ext.reverse, (y != '.') = true := by
          intro y hy
          exact bne_iff_ne.mpr (hx y (List.mem_reverse.mp hy))
        have hdw : (ext.reverse ++ ['.', d2, d1, '.']).dropWhile (fun x => x != '.') =
            ['.', d2, d1, '.'] := by
          rw [dropWhile_append_of_all _ hall]
          rfl
        simp [specTokenCore, extYearTokenCore, hrev, hdw, hd1, hd2]

/-! Helper lemmas about the consolidation step. -/

lemma consolidate_some {names : List String} {contrib : String → Option Series}
    {year : Nat} {T : YearTable} {fills : List FillRecord}
    (h : consolidate names contrib year = some (T, fills)) :
    T = buildTable names contrib ∧ fills = fillsFor names contrib year := by
  unfold consolidate at h
  split at h
  · exact absurd h (by simp)
  · simp only [Option.some.injEq, Prod.mk.injEq] at h
    exact ⟨h.1.symm, h.2.symm⟩

lemma getD_range_map {α : Type} (f : Nat → α) (d : α) {N i : Nat} (hi : i < N) :
    ((List.range N).map f).getD i d = f i := by
  rw [List.getD_eq_getElem?_getD, List.getElem?_map, List.getElem?_range hi]
  rfl

lemma getD_replicate_none {N i : Nat} :
    (List.replicate N (none : Option ℚ)).getD i none = none := by
  rcases Nat.lt_or_ge i N with hlt | hge
  · rw [List.getD_eq_getElem?_getD]
    simp [List.getElem?_eq_getElem (by simpa using hlt : i < (List.replicate N (none : Option ℚ)).length)]
  · exact List.getD_eq_default _ _ (by simpa using hge)

lemma filterMap_contrib_eq (names : List String) (contrib : String → Option Series) :
    names.filterMap contrib =
      (names.filter (fun s => (contrib s).isSome)).map (fun s => (contrib s).getD []) := by
  induction names with
  | nil => rfl
  | cons a l ih =>
    cases hc : contrib a with
    | none => simp [List.filterMap_cons, List.filter_cons, hc, ih]
    | some x => simp [List.filterMap_cons, List.filter_cons, hc, ih]

lemma maxDataLength_eq_longest (names : List String) (contrib : String → Option Series) :
    maxDataLength names contrib = longestContribLength names contrib := by
  unfold maxDataLength longestContribLength contributingNames
  rw [filterMap_contrib_eq, List.map_map]
  rfl

lemma avgStations_eq_otherStations {names : List String}
    (contrib : String → Option Series) (hnd : names.Nodup) :
    avgStations names contrib = otherStations names contrib := by
  rcases List.eq_nil_or_concat names with rfl | ⟨init, t, hn⟩
  · rfl
  rw [List.concat_eq_append] at hn
  subst hn
  have htar : targetName (init ++ [t]) = t := by
    unfold targetName
    exact List.getLastD_concat _ _ _
  have hni : ∀ s ∈ init, s ≠ t := by
    rw [List.nodup_append] at hnd
    intro s hs hst
    exact hnd.2.2 hs (by simp [hst])
  unfold avgStations otherStations
  rw [htar, List.dropLast_concat, List.filter_append]
  have hlt : List.filter (fun s => (contrib s).isSome && (s != t)) [t] = [] := by
    simp
  rw [hlt, List.append_nil]
  rcases init with _ | ⟨i0, irest⟩
  · simp
  have hguard : 1 < ((i0 :: irest) ++ [t]).length := by
    simp
  rw [if_pos hguard]
  apply List.filter_congr
  intro s hs
  have := bne_iff_ne.mpr (hni s hs)
  simp [this]

/-! Claim theorems. -/

/-- C3: for every filename carrying a trailing two-digit token V
immediately preceded by a literal period (optionally followed by one
further period-delimited extension), the extractor returns 1900+V when
V > 50 and 2000+V when V ≤ 50, and for every filename without such a
token it returns absent rather than an error; in particular `X.92` gives
1992, `X.05` gives 2005 and `X.50` gives 2050. -/
theorem c3_filename_year_extraction :
    (∀ s : String, extract_year_from_filename s =
      (specYearToken s).map (fun v => if 50 < v then 1900 + v else 2000 + v)) ∧
    extract_year_from_filename "X.92" = some 1992 ∧
    extract_year_from_filename "X.05" = some 2005 ∧
    extract_year_from_filename "X.50" = some 2050 := by
  refine ⟨fun s => ?_, by decide, by decide, by decide⟩
  unfold extract_year_from_filename specYearToken
  rw [searchTwoDigitYear_eq_spec]
  rfl

/-- C2: in every consolidated year table, the average column holds, at
every row, the arithmetic mean of the present values among the
contributing stations excluding the target (last-listed) station, and is
absent when no such value exists; with a single configured station it is
absent at every row. -/
theorem c2_average_of_others {names : List String} {contrib : String → Option Series}
    {year : Nat} {T : YearTable} {fills : List FillRecord} (hnd : names.Nodup)
    (h : consolidate names contrib year = some (T, fills)) :
    T.avgCol = (List.range (maxDataLength names contrib)).map (fun i =>
      mean? ((otherStations names contrib).filterMap (fun s => stationCell contrib s i))) ∧
    (names.length = 1 → T.avgCol = List.replicate (maxDataLength names contrib) none) := by
  obtain ⟨hT, -⟩ := consolidate_some h
  subst hT
  have havg : ∀ i, averageAt names contrib i =
      mean? ((otherStations names contrib).filterMap (fun s => stationCell contrib s i)) := by
    intro i
    unfold averageAt mean?
    rw [avgStations_eq_otherStations contrib hnd]
  constructor
  · exact List.map_congr_left (fun i _ => havg i)
  · intro hone
    have hother : otherStations names contrib = [] := by
      rcases names with _ | ⟨a, _ | ⟨b, l⟩⟩
      · simp at hone
      · unfold otherStations targetName
        simp
      · simp at hone
    rw [show buildTable names contrib = buildTable names contrib from rfl]
    unfold buildTable
    simp only
    rw [List.eq_replicate_iff]
    constructor
    · simp
    · intro b hb
      rw [List.mem_map] at hb
      obtain ⟨i, -, hbi⟩ := hb
      rw [← hbi, havg i, hother]
      rfl

/-- Inversion of the fill decision at one row: an emitted record carries
the year, the row's 1-based day index and the row's average value, and
certifies that the target's value was absent and the average present. -/
lemma fillAtRow_some {names : List String} {contrib : String → Option Series}
    {year j : Nat} {r : FillRecord} (h : fillAtRow names contrib year j = some r) :
    r.year = year ∧ r.day = j + 1 ∧
      stationCell contrib (targetName names) j = none ∧
      averageAt names contrib j = some r.value := by
  unfold fillAtRow at h
  cases hc : stationCell contrib (targetName names) j with
  | some w =>
    rw [hc] at h
    simp at h
  | none =>
    rw [hc] at h
    cases ha : averageAt names contrib j with
    | none =>
      rw [ha] at h
      simp at h
    | some a =>
      rw [ha] at h
      have hre : FillRecord.mk year (j + 1) (targetName names) a = r :=
        Option.some.inj h
      have hyear : r.year = year := by rw [← hre]
      have hday : r.day = j + 1 := by rw [← hre]
      have hval : r.value = a := by rw [← hre]
      refine ⟨hyear, hday, rfl, ?_⟩
      rw [hval]

/-- Inversion of the fill-record construction: every emitted record comes
from a row at which the target's value is absent and the average present,
and carries the year and that row's day index and average value. -/
lemma fillsFor_mem_inv {names : List String} {contrib : String → Option Series}
    {year : Nat} {r : FillRecord} (hr : r ∈ fillsFor names contrib year) :
    ∃ j, j < maxDataLength names contrib ∧ r.year = year ∧ r.day = j + 1 ∧
      stationCell contrib (targetName names) j = none ∧
      averageAt names contrib j = some r.value := by
  unfold fillsFor at hr
  by_cases htar : (contrib (targetName names)).isSome
  · rw [if_pos htar, List.mem_filterMap] at hr
    obtain ⟨j, hj, hrj⟩ := hr
    exact ⟨j, List.mem_range.mp hj, fillAtRow_some hrj⟩
  · rw [if_neg htar] at hr
    simp at hr

/-- C1 (amended): in a year whose consolidated table contains the target
station's column, the Gap Filler sets Trade to the average value exactly
at the rows where the target's value is absent and the average is present
(storing the average without rounding and emitting a fill record), keeps
a present target value unchanged with no record, and leaves the row
absent with no record when both are absent. -/
theorem c1_gap_filling {names : List String} {contrib : String → Option Series}
    {year : Nat} {T : YearTable} {fills : List FillRecord}
    (htar : (contrib (targetName names)).isSome)
    (h : consolidate names contrib year = some (T, fills)) :
    ∀ i, i < maxDataLength names contrib →
      ((stationCell contrib (targetName names) i = none →
          ∀ a, T.avgCol.getD i none = some a →
            T.tradeCol.getD i none = some a ∧
              FillRecord.mk year (i + 1) (targetName names) a ∈ fills) ∧
        (∀ v, stationCell contrib (targetName names) i = some v →
          T.tradeCol.getD i none = some v ∧ ∀ r ∈ fills, r.day ≠ i + 1) ∧
        (stationCell contrib (targetName names) i = none →
          T.avgCol.getD i none = none →
            T.tradeCol.getD i none = none ∧ ∀ r ∈ fills, r.day ≠ i + 1)) := by
  obtain ⟨hT, hF⟩ := consolidate_some h
  subst hT
  subst hF
  intro i hi
  have havg : (buildTable names contrib).avgCol.getD i none = averageAt names contrib i := by
    simp only [buildTable]
    exact getD_range_map _ _ hi
  have htrade : (buildTable names contrib).tradeCol.getD i none = tradeAt names contrib i := by
    simp only [buildTable]
    exact getD_range_map _ _ hi
  refine ⟨?_, ?_, ?_⟩
  · intro hcell a ha
    rw [havg] at ha
    constructor
    · rw [htrade]
      unfold tradeAt
      rw [if_pos htar, hcell, ha]
    · unfold fillsFor
      rw [if_pos htar, List.mem_filterMap]
      refine ⟨i, List.mem_range.mpr hi, ?_⟩
      unfold fillAtRow
      rw [hcell, ha]
  · intro v hv
    constructor
    · rw [htrade]
      unfold tradeAt
      rw [if_pos htar, hv]
    · intro r hr hday
      obtain ⟨j, -, -, hjd, hjc, -⟩ := fillsFor_mem_inv hr
      have hji : j = i := by omega
      rw [hji] at hjc
      rw [hjc] at hv
      exact Option.noConfusion hv
  · intro hcell ha
    rw [havg] at ha
    constructor
    · rw [htrade]
      unfold tradeAt
      rw [if_pos htar, hcell, ha]
    · intro r hr hday
      obtain ⟨j, -, -, hjd, -, hja⟩ := fillsFor_mem_inv hr
      have hji : j = i := by omega
      rw [hji] at hja
      rw [ha] at hja
      exact Option.noConfusion hja

/-- C5: a non-skipped year's table has exactly N rows where N is the
longest contributing series length, its day indices are the contiguous
integers 1..N, and a contributing station's column reads as absent at
every index beyond that station's own series length. -/
theorem c5_table_shape {names : List String} {contrib : String → Option Series}
    {year : Nat} {T : YearTable} {fills : List FillRecord}
    (h : consolidate names contrib year = some (T, fills)) :
    T.dayCol = List.range' 1 (longestContribLength names contrib) ∧
    T.dayCol.length = longestContribLength names contrib ∧
    (∀ p ∈ T.stationCols, p.2.length = longestContribLength names contrib) ∧
    T.avgCol.length = longestContribLength names contrib ∧
    T.tradeCol.length = longestContribLength names contrib ∧
    (∀ p ∈ T.stationCols, ∀ ser, contrib p.1 = some ser →
      ∀ i, ser.length ≤ i → p.2.getD i none = none) := by
  obtain ⟨hT, -⟩ := consolidate_some h
  subst hT
  rw [← maxDataLength_eq_longest]
  refine ⟨rfl, by simp [buildTable], ?_, by simp [buildTable], by simp [buildTable], ?_⟩
  · intro p hp
    simp only [buildTable] at hp
    rw [List.mem_map] at hp
    obtain ⟨s, -, hs⟩ := hp
    have h2 : p.2 = (List.range (maxDataLength names contrib)).map (stationCell contrib s) := by
      rw [← hs]
    rw [h2]
    simp
  · intro p hp ser hser i hilen
    simp only [buildTable] at hp
    rw [List.mem_map] at hp
    obtain ⟨s, -, hs⟩ := hp
    have h1 : p.1 = s := by rw [← hs]
    have h2 : p.2 = (List.range (maxDataLength names contrib)).map (stationCell contrib s) := by
      rw [← hs]
    rw [h1] at hser
    rw [h2]
    rcases Nat.lt_or_ge i (maxDataLength names contrib) with hlt | hge
    · rw [getD_range_map _ _ hlt]
      unfold stationCell cellAt
      rw [hser]
      exact List.getD_eq_default _ _ hilen
    · exact List.getD_eq_default _ _ (by simpa using hge)

/-- C6: when the target station contributed no data for a year whose
table is still built, the Trade column is absent at every row and no fill
record is emitted, even at rows where the average is present. -/
theorem c6_no_target_no_fills {names : List String} {contrib : String → Option Series}
    {year : Nat} {T : YearTable} {fills : List FillRecord}
    (htar : contrib (targetName names) = none)
    (h : consolidate names contrib year = some (T, fills)) :
    fills = [] ∧ T.tradeCol = List.replicate (maxDataLength names contrib) none ∧
    ∀ i, T.tradeCol.getD i none = none := by
  obtain ⟨hT, hF⟩ := consolidate_some h
  subst hT
  subst hF
  have htr : ∀ i, tradeAt names contrib i = none := by
    intro i
    unfold tradeAt
    rw [htar]
    rfl
  refine ⟨?_, ?_, ?_⟩
  · unfold fillsFor
    rw [htar]
    rfl
  · simp only [buildTable]
    rw [List.eq_replicate_iff]
    refine ⟨by simp, ?_⟩
    intro b hb
    rw [List.mem_map] at hb
    obtain ⟨i, -, hbi⟩ := hb
    rw [← hbi, htr]
  · intro i
    simp only [buildTable]
    rcases Nat.lt_or_ge i (maxDataLength names contrib) with hlt | hge
    · rw [getD_range_map _ _ hlt, htr]
    · exact List.getD_eq_default _ _ (by simpa using hge)

/-! Concrete instances used by counterexamples and witnesses. -/

/-- Contributions with station A present and the target station B absent. -/
def ceContrib : String → Option Series := fun s =>
  if s = "A" then some [some 1] else none

/-- C1 counterexample: with stations A and B (target B), A contributing
the single value 1 and B contributing nothing, the consolidated table for
1990 exists and its only row has the target's value absent and the
average present (value 1), yet Trade is absent (not set to the average)
and no fill record is emitted — contradicting the claimed iff for this
row of the year's consolidated table. -/
theorem c1_counterexample :
    stationCell ceContrib (targetName ["A", "B"]) 0 = none ∧
    consolidate ["A", "B"] ceContrib 1990 =
      some (YearTable.mk [1] [("A", [some 1])] [some 1] [none], []) := by
  refine ⟨rfl, ?_⟩
  have hA : ceContrib "A" = some [some 1] := rfl
  have hB : ceContrib "B" = none := rfl
  have ht : targetName ["A", "B"] = "B" := rfl
  norm_num [consolidate, buildTable, contributingNames, maxDataLength, avgStations,
    averageAt, tradeAt, fillsFor, fillAtRow, stationCell, cellAt, ht, hA, hB,
    List.filterMap_cons, List.filter_cons, List.range_succ, List.range']

/-- The end-to-end scenario of the spec: stations Alpha and Beta, target
Beta, year 1990. -/
def gwContrib : String → Option Series := fun s =>
  if s = "Alpha" then some [some 5, none, some 7]
  else if s = "Beta" then some [none, some 6, some 9]
  else none

/-- Expected consolidated table for the Alpha/Beta scenario. -/
def gwTable : YearTable :=
  YearTable.mk [1, 2, 3]
    [("Alpha", [some 5, none, some 7]), ("Beta", [none, some 6, some 9])]
    [some 5, none, some 7] [some 5, some 6, some 9]

/-- Expected fill records for the Alpha/Beta scenario: one fill, day 1,
value 5. -/
def gwFills : List FillRecord := [FillRecord.mk 1990 1 "Beta" 5]

lemma gw_consolidate :
    consolidate ["Alpha", "Beta"] gwContrib 1990 = some (gwTable, gwFills) := by
  have hA : gwContrib "Alpha" = some [some 5, none, some 7] := rfl
  have hB : gwContrib "Beta" = some [none, some 6, some 9] := rfl
  have ht : targetName ["Alpha", "Beta"] = "Beta" := rfl
  norm_num [consolidate, buildTable, gwTable, gwFills, contributingNames,
    maxDataLength, avgStations, averageAt, tradeAt, fillsFor, fillAtRow, stationCell,
    cellAt, ht, hA, hB, List.filterMap_cons, List.filter_cons,
    List.range_succ, List.range']

theorem c1_gap_filling_witness :
    gwTable.tradeCol.getD 0 none = some 5 ∧
    FillRecord.mk 1990 1 "Beta" 5 ∈ gwFills := by
  have htar : (gwContrib (targetName ["Alpha", "Beta"])).isSome := rfl
  have hi : 0 < maxDataLength ["Alpha", "Beta"] gwContrib := by decide
  have hcell : stationCell gwContrib (targetName ["Alpha", "Beta"]) 0 = none := rfl
  have havg : gwTable.avgCol.getD 0 none = some 5 := rfl
  exact (c1_gap_filling htar gw_consolidate 0 hi).1 hcell 5 havg

theorem c2_average_of_others_witness :
    gwTable.avgCol = (List.range (maxDataLength ["Alpha", "Beta"] gwContrib)).map (fun i =>
      mean? ((otherStations ["Alpha", "Beta"] gwContrib).filterMap
        (fun s => stationCell gwContrib s i))) :=
  (c2_average_of_others (by decide) gw_consolidate).1

/-- Contributions of unequal lengths for the C5 witness. -/
def c5Contrib : String → Option Series := fun s =>
  if s = "A" then some [some 1, some 2, some 3]
  else if s = "B" then some [some 5] else none

/-- Expected consolidated table for the unequal-length scenario. -/
def c5Table : YearTable :=
  YearTable.mk [1, 2, 3]
    [("A", [some 1, some 2, some 3]), ("B", [some 5, none, none])]
    [some 1, some 2, some 3] [some 5, some 2, some 3]

/-- Expected fill records for the unequal-length scenario. -/
def c5Fills : List FillRecord :=
  [FillRecord.mk 1990 2 "B" 2, FillRecord.mk 1990 3 "B" 3]

lemma c5_consolidate :
    consolidate ["A", "B"] c5Contrib 1990 = some (c5Table, c5Fills) := by
  have hA : c5Contrib "A" = some [some 1, some 2, some 3] := rfl
  have hB : c5Contrib "B" = some [some 5] := rfl
  have ht : targetName ["A", "B"] = "B" := rfl
  norm_num [consolidate, buildTable, c5Table, c5Fills, contributingNames,
    maxDataLength, avgStations, averageAt, tradeAt, fillsFor, fillAtRow, stationCell,
    cellAt, ht, hA, hB, List.filterMap_cons, List.filter_cons,
    List.range_succ, List.range']

theorem c5_table_shape_witness :
    c5Table.dayCol = List.range' 1 (longestContribLength ["A", "B"] c5Contrib) :=
  (c5_table_shape c5_consolidate).1

/-- Contributions with the target station absent, for the C6 witness. -/
def c6Contrib : String → Option Series := fun s =>
  if s = "A" then some [some 2] else none

/-- Expected consolidated table when the target contributes nothing. -/
def c6Table : YearTable := YearTable.mk [1] [("A", [some 2])] [some 2] [none]

lemma c6_consolidate :
    consolidate ["A", "B"] c6Contrib 1990 = some (c6Table, []) := by
  have hA : c6Contrib "A" = some [some 2] := rfl
  have hB : c6Contrib "B" = none := rfl
  have ht : targetName ["A", "B"] = "B" := rfl
  norm_num [consolidate, buildTable, c6Table, contributingNames,
    maxDataLength, avgStations, averageAt, tradeAt, fillsFor, fillAtRow, stationCell,
    cellAt, ht, hA, hB, List.filterMap_cons, List.filter_cons,
    List.range_succ, List.range']

theorem c6_no_target_no_fills_witness :
    c6Table.tradeCol = List.replicate (maxDataLength ["A", "B"] c6Contrib) none :=
  (c6_no_target_no_fills rfl c6_consolidate).2.1

/-- C4: a successfully loaded N-row file yields a series of exactly N
entries, the i-th entry being the parse of the i-th row's second cell
(absent when parsing fails or the cell is missing); no row is dropped and
the original row order is preserved. -/
theorem c4_loader_row_preservation {parse : String → Option ℚ}
    {rows : List (List String)} {out : Series}
    (h : read_custom_space_separated_file parse rows = some out) :
    out.length = rows.length ∧
    ∀ (i : Nat) (r : List String), rows[i]? = some r →
      out[i]? = some ((r.get? 1).bind parse) := by
  rcases rows with _ | ⟨r0, rest⟩
  · exact Option.noConfusion h
  · simp only [read_custom_space_separated_file] at h
    split at h
    · exact Option.noConfusion h
    · split at h
      · exact Option.noConfusion h
      · have hout : out = (r0 :: rest).map (fun r => (r.get? 1).bind parse) :=
          (Option.some.inj h).symm
        subst hout
        constructor
        · simp
        · intro i r hir
          rw [List.getElem?_map, hir]
          rfl

/-- Toy cell parser for the loader witness. -/
def c4Parse : String → Option ℚ := fun s => if s = "3" then some 3 else none

/-- Two-row file for the loader witness: the second row's second cell
does not parse. -/
def c4Rows : List (List String) := [["a", "3"], ["b", "x"]]

theorem c4_loader_row_preservation_witness :
    ([some 3, none] : Series).length = c4Rows.length := by
  have h : read_custom_space_separated_file c4Parse c4Rows = some [some 3, none] := rfl
  exact (c4_loader_row_preservation h).1

/-- C7: for a year in which no station yields any data, the year loop
builds no table (the year is skipped) and the year does not occur among
the year-keyed tables that feed the per-year exports and the columns of
the multi-year aggregates. -/
theorem c7_empty_year_skipped {parse : String → Option ℚ} {names : List String}
    {fsys : String → List DataFile} {y : Nat}
    (h : ∀ s ∈ names, station_year_series parse (fsys s) y = none) :
    consolidate names (contribOf parse fsys y) y = none ∧
    y ∉ (run_climate_processor parse names fsys).1.map Prod.fst := by
  have hempty : contributingNames names (contribOf parse fsys y) = [] := by
    unfold contributingNames
    rw [List.filter_eq_nil_iff]
    intro s hs
    simp [contribOf, h s hs]
  have hnone : consolidate names (contribOf parse fsys y) y = none := by
    unfold consolidate
    rw [hempty]
    rfl
  refine ⟨hnone, ?_⟩
  have hmem : ∀ ys : List Nat, y ∈ (processYears parse names fsys ys).1.map Prod.fst →
      consolidate names (contribOf parse fsys y) y ≠ none := by
    intro ys
    induction ys with
    | nil =>
      intro hy
      simp [processYears] at hy
    | cons y0 ys ih =>
      intro hy
      unfold processYears at hy
      cases hc : consolidate names (contribOf parse fsys y0) y0 with
      | none =>
        rw [hc] at hy
        exact ih hy
      | some p =>
        obtain ⟨t, fl⟩ := p
        rw [hc] at hy
        simp only [List.map_cons, List.mem_cons] at hy
        rcases hy with rfl | hy
        · rw [hc]
          exact fun hcontra => Option.noConfusion hcontra
        · exact ih hy
  intro hy
  exact hmem years_to_process hy hnone

theorem c7_empty_year_skipped_witness :
    consolidate ["A"] (contribOf (fun _ => none) (fun _ => []) 1985) 1985 = none ∧
    1985 ∉ (run_climate_processor (fun _ => none) ["A"] (fun _ => [])).1.map Prod.fst :=
  c7_empty_year_skipped (fun _ _ => rfl)

/-- Relations are preserved through `filterMap` when the mapping preserves
them on successful outputs. -/
lemma pairwise_filterMap_aux {α β : Type} {R : α → α → Prop} {S : β → β → Prop}
    (g : α → Option β)
    (hg : ∀ a b x y, R a b → g a = some x → g b = some y → S x y) :
    ∀ l : List α, l.Pairwise R → (l.filterMap g).Pairwise S := by
  intro l hl
  induction hl with
  | nil => simp
  | @cons a l ha hpl ih =>
    rw [List.filterMap_cons]
    cases hga : g a with
    | none => exact ih
    | some x =>
      rw [List.pairwise_cons]
      refine ⟨?_, ih⟩
      intro y hy
      rw [List.mem_filterMap] at hy
      obtain ⟨b, hb, hgb⟩ := hy
      exact hg a b x y (ha b hb) hga hgb

/-- Within one year, fill records are emitted in strictly increasing day
order. -/
lemma fillsFor_pairwise_day {names : List String} {contrib : String → Option Series}
    {year : Nat} :
    (fillsFor names contrib year).Pairwise (fun a b => a.day < b.day) := by
  unfold fillsFor
  split
  · apply pairwise_filterMap_aux _ ?_ _ (List.pairwise_lt_range _)
    intro a b x y hab hga hgb
    have hxa := (fillAtRow_some hga).2.1
    have hyb := (fillAtRow_some hgb).2.1
    omega
  · simp

/-- The overall log built over a strictly increasing year list is
chronologically ordered and only mentions years of the list. -/
lemma processYears_log {parse : String → Option ℚ} {names : List String}
    {fsys : String → List DataFile} :
    ∀ ys : List Nat, ys.Pairwise (· < ·) →
      (∀ r ∈ (processYears parse names fsys ys).2, r.year ∈ ys) ∧
      ((processYears parse names fsys ys).2).Pairwise chronOrder := by
  intro ys
  induction ys with
  | nil =>
    intro hp
    constructor
    · intro r hr
      simp [processYears] at hr
    · simp [processYears]
  | cons y0 ys ih =>
    intro hp
    rw [List.pairwise_cons] at hp
    obtain ⟨hhead, htail⟩ := hp
    obtain ⟨ihmem, ihpw⟩ := ih htail
    unfold processYears
    cases hc : consolidate names (contribOf parse fsys y0) y0 with
    | none =>
      exact ⟨fun r hr => List.mem_cons_of_mem _ (ihmem r hr), ihpw⟩
    | some p =>
      obtain ⟨t, fl⟩ := p
      have hfl : fl = fillsFor names (contribOf parse fsys y0) y0 := (consolidate_some hc).2
      constructor
      · intro r hr
        simp only [List.mem_append] at hr
        rcases hr with hr | hr
        · have hy : r.year = y0 := by
            rw [hfl] at hr
            obtain ⟨j, -, hy0, -⟩ := fillsFor_mem_inv hr
            exact hy0
          simp [hy]
        · exact List.mem_cons_of_mem _ (ihmem r hr)
      · rw [List.pairwise_append]
        refine ⟨?_, ihpw, ?_⟩
        · have hpd : fl.Pairwise (fun a b => a.day < b.day) := by
            rw [hfl]
            exact fillsFor_pairwise_day
          apply List.Pairwise.imp_of_mem ?_ hpd
          intro a b ha hb hd
          rw [hfl] at ha hb
          obtain ⟨-, -, hya, -⟩ := fillsFor_mem_inv ha
          obtain ⟨-, -, hyb, -⟩ := fillsFor_mem_inv hb
          right
          rw [hya, hyb]
          exact ⟨rfl, hd⟩
        · intro a ha b hb
          left
          rw [hfl] at ha
          obtain ⟨-, -, hya, -⟩ := fillsFor_mem_inv ha
          rw [hya]
          exact hhead _ (ihmem b hb)

/-- C8: years are processed strictly in ascending order over the fixed
range 1981–2010, and the process-wide fill log is chronologically
ordered: any earlier-year entry precedes any later-year entry, and within
one year entries appear in strictly increasing day order. -/
theorem c8_log_chronological (parse : String → Option ℚ) (names : List String)
    (fsys : String → List DataFile) :
    years_to_process.head? = some 1981 ∧
    years_to_process.getLast? = some 2010 ∧
    List.Pairwise (· < ·) years_to_process ∧
    List.Pairwise chronOrder (run_climate_processor parse names fsys).2 := by
  have hpw : List.Pairwise (· < ·) years_to_process := by decide
  exact ⟨by decide, by decide, hpw, (processYears_log years_to_process hpw).2⟩

/-- C9: a parsed file with fewer than two whitespace-delimited columns
fails to load with the malformed-file condition, and removing such a file
from its station's directory listing leaves the entire run (every year's
table and the whole fill log) unchanged: the failure is non-fatal and
aggregation proceeds with the remaining files. -/
theorem c9_malformed_file_skipped {parse : String → Option ℚ}
    {names : List String} {fsys : String → List DataFile} {s : String}
    {pre post : List DataFile} {f : DataFile} {r0 : List String}
    {rest : List (List String)}
    (hrows : f.rows = r0 :: rest)
    (hragged : ∀ r ∈ rest, r.length ≤ r0.length)
    (hcols : r0.length < 2)
    (hfs : fsys s = pre ++ f :: post) :
    read_custom_space_separated_file parse f.rows = none ∧
    run_climate_processor parse names fsys =
      run_climate_processor parse names (fun t => if t = s then pre ++ post else fsys t) := by
  have hread : read_custom_space_separated_file parse f.rows = none := by
    rw [hrows]
    simp only [read_custom_space_separated_file]
    have hany : (rest.any fun r => r0.length < r.length) = false := by
      rw [List.any_eq_false]
      intro r hr
      simpa using hragged r hr
    rw [if_neg (by rw [hany]; exact Bool.false_ne_true), if_pos hcols]
  refine ⟨hread, ?_⟩
  have hparts : ∀ (y : Nat) (t : String),
      contribOf parse (fun u => if u = s then pre ++ post else fsys u) y t =
        contribOf parse fsys y t := by
    intro y t
    unfold contribOf
    show station_year_series parse (if t = s then pre ++ post else fsys t) y =
      station_year_series parse (fsys t) y
    by_cases hts : t = s
    · rw [if_pos hts, hts]
      have hpp : station_year_parts parse (pre ++ post) y =
          station_year_parts parse (fsys s) y := by
        rw [hfs]
        unfold station_year_parts
        rw [List.filterMap_append, List.filterMap_append, List.filterMap_cons]
        have hfnone : (if f.isDir then none
            else if extract_year_from_filename f.name = some y then
              read_custom_space_separated_file parse f.rows
            else none) = (none : Option Series) := by
          by_cases hd : f.isDir
          · rw [if_pos hd]
          · rw [if_neg hd]
            by_cases hy : extract_year_from_filename f.name = some y
            · rw [if_pos hy, hread]
            · rw [if_neg hy]
        rw [hfnone]
      unfold station_year_series
      rw [hpp]
    · rw [if_neg hts]
  have hcong : ∀ ys : List Nat,
      processYears parse names (fun u => if u = s then pre ++ post else fsys u) ys =
        processYears parse names fsys ys := by
    intro ys
    induction ys with
    | nil => rfl
    | cons y ys ih =>
      unfold processYears
      rw [ih]
      have hc : contribOf parse (fun u => if u = s then pre ++ post else fsys u) y =
          contribOf parse fsys y := funext (hparts y)
      rw [hc]
  exact (hcong years_to_process).symm

/-- Single malformed one-column file used by the C9 witness. -/
def c9File : DataFile := DataFile.mk "data.85" false [["7"]]

/-- Filesystem with only the malformed file in station A's folder. -/
def c9Fsys : String → List DataFile := fun t => if t = "A" then [c9File] else []

theorem c9_malformed_file_skipped_witness :
    read_custom_space_separated_file (fun _ => none) c9File.rows = none ∧
    run_climate_processor (fun _ => none) ["A"] c9Fsys =
      run_climate_processor (fun _ => none) ["A"]
        (fun t => if t = "A" then [] ++ [] else c9Fsys t) :=
  @c9_malformed_file_skipped (fun _ => none) ["A"] c9Fsys "A" [] [] c9File ["7"] []
    rfl (by simp) (by decide) rfl

/-- C10: the pipeline is deterministic in its inputs: two runs over the
same station list and extensionally equal cell parsers and directory
listings produce identical per-year tables and fill logs, the logs being
identical entry for entry in the same order. -/
theorem c10_deterministic {parse1 parse2 : String → Option ℚ}
    {names1 names2 : List String} {fsys1 fsys2 : String → List DataFile}
    (hp : ∀ t, parse1 t = parse2 t) (hn : names1 = names2)
    (hf : ∀ t, fsys1 t = fsys2 t) :
    run_climate_processor parse1 names1 fsys1 = run_climate_processor parse2 names2 fsys2 ∧
    (run_climate_processor parse1 names1 fsys1).1 = (run_climate_processor parse2 names2 fsys2).1 ∧
    (run_climate_processor parse1 names1 fsys1).2.length =
      (run_climate_processor parse2 names2 fsys2).2.length ∧
    ∀ i : Nat, (run_climate_processor parse1 names1 fsys1).2[i]? =
      (run_climate_processor parse2 names2 fsys2).2[i]? := by
  have hp2 : parse1 = parse2 := funext hp
  have hf2 : fsys1 = fsys2 := funext hf
  subst hp2
  subst hn
  subst hf2
  exact ⟨rfl, rfl, rfl, fun i => rfl⟩

theorem c10_deterministic_witness :
    run_climate_processor (fun _ => none) ["A"] (fun _ => []) =
      run_climate_processor (fun _ => none) ["A"] (fun _ => []) :=
  (c10_deterministic (fun _ => rfl) rfl (fun _ => rfl)).1

end ClimateApp
